import Mathlib

/-!
Shallow embedding of the time-series projection engine of the
Gym-and-Nutrition-Tracker repository (files `src/utils.py` and
`src/forecast.py`), together with theorems settling the frozen claims
about its specification.

Modelling conventions:
* Python floats are modelled by `ℚ` (exact arithmetic); every numeric
  literal of the source (`1.96`, `0.8`, `1.5`, `0.1`, `0.75`, `2.20462`,
  `7700`, `1e-9`) is an exact rational here.
* Timestamps are day numbers (`ℤ`); `pd.Timedelta(days = k)` is `+ k`.
* A pandas cell that can be `NaN`/`NaT` after coercion is an `Option`.
* `numpy.sqrt` is irrational on most inputs, so functions that need it
  take a parameter `sq : ℚ → ℚ`; theorems that depend on properties of
  the square root assume only what the real function satisfies
  (`sq 0 = 0`, nonnegativity on the inputs used).
* The exponential recency weights `np.exp(np.linspace(-2, 0, n))`
  (normalised) are irrational, so `forecast_weight_realistic` takes the
  weight vector builder `wfun : ℕ → List ℚ` as a parameter; theorems
  about it hold for every weight vector, hence for the real one.
* `statsmodels`' `ExponentialSmoothing` is an external black box behind
  a `try/except`; it is a parameter `holtFn` returning `none` on an
  internal exception and otherwise the pair (fitted in-sample values,
  out-of-sample forecast), exactly the data the source reads off it.
* `np.linalg.solve` raises `LinAlgError` on a singular system; it is
  modelled as an `Option`, `none` standing for the raised exception.
-/

namespace GymTracker

/-- `kind` column of a forecast row: `"actual"` or `"pred"`. -/
inductive PKind where
  | actual
  | pred
deriving DecidableEq

/-- One row of the ForecastSeries dataframes built in `forecast.py`:
a timestamp (day number or sequential index `t`), a value, optional
confidence-band columns (absent columns / NaN cells are `none`), and the
`kind` tag. -/
structure FPoint where
  date : ℤ
  value : ℚ
  lower : Option ℚ
  upper : Option ℚ
  kind : PKind
deriving DecidableEq

/-- The `algo` literal of `forecast_series`. -/
inductive Algo where
  | auto
  | holt
  | linear
  | poly
deriving DecidableEq

/-! ### Small numeric/list helpers shared by the embedding -/

/-- `np.mean` of a list (0 on empty, as a convention; the source never
takes a mean of an empty array on the paths modelled here). -/
def meanQ (l : List ℚ) : ℚ := l.sum / l.length

/-- Population variance, i.e. `np.std(y) ** 2` (ddof = 0). -/
def varQ (l : List ℚ) : ℚ := ((l.map (fun v => (v - meanQ l) ^ 2)).sum) / l.length

/-- Sample variance, i.e. `Series.std(ddof=1) ** 2`. -/
def sampleVarQ (l : List ℚ) : ℚ :=
  ((l.map (fun v => (v - meanQ l) ^ 2)).sum) / (l.length - 1 : ℚ)

/-- Mean squared error between observations and aligned predictions,
`np.mean((y - preds) ** 2)`. -/
def mseQ (y preds : List ℚ) : ℚ :=
  (((y.zip preds).map (fun p => (p.1 - p.2) ^ 2)).sum) / y.length

/-- `np.min` of a nonempty list (0 on empty, never used there). -/
def minQ : List ℚ → ℚ
  | [] => 0
  | x :: xs => xs.foldl min x

/-- `np.max` of a nonempty list (0 on empty, never used there). -/
def maxQ : List ℚ → ℚ
  | [] => 0
  | x :: xs => xs.foldl max x

/-- `np.clip(x, lo, hi)` on scalars: `min(max(x, lo), hi)`. -/
def clipQ (x lo hi : ℚ) : ℚ := min (max x lo) hi

/-- `l.iloc[::n]` — every `n`-th element starting at index 0. -/
def everyNth (l : List FPoint) (n : ℕ) : List FPoint :=
  (List.range ((l.length + (n - 1)) / n)).map
    (fun j => l.getD (n * j) ⟨0, 0, none, none, PKind.pred⟩)

/-- `DataFrame.sort_values(key)`: pandas sorting by a key; modelled as a
(stable) insertion sort on the key. Ties keep arrival order. -/
def sortOn {α : Type} (key : α → ℤ) (l : List α) : List α :=
  List.insertionSort (fun a b => key a ≤ key b) l

/-- The values of the `kind = "pred"` rows of a forecast output, in
order. -/
def predValues (l : List FPoint) : List ℚ :=
  (l.filter (fun p => p.kind = PKind.pred)).map (fun p => p.value)

/-! ### `src/utils.py` — series normalizers -/

/-- A raw bodyweight CSV row after pandas coercion:
`(to_datetime(date, errors="coerce"), to_numeric(body_weight_lbs),
to_numeric(goal_weight_lbs))`; invalid cells are `none`. -/
def BWRaw : Type := Option ℤ × Option ℚ × Option ℚ

/-- The rows of `read_bodyweight` that survive
`dropna(subset=["date"])` — note rows with a NaN weight are kept. -/
def bwValid (rows : List BWRaw) : List (ℤ × Option ℚ × Option ℚ) :=
  rows.filterMap (fun r =>
    match r.1 with
    | some d => some (d, r.2.1, r.2.2)
    | none => none)

/-- `read_bodyweight` (src/utils.py lines 85–94): coerce the date and
numeric columns, drop rows with an invalid date, sort ascending by
date. -/
def read_bodyweight (rows : List BWRaw) : List (ℤ × Option ℚ × Option ℚ) :=
  sortOn (fun r => r.1) (bwValid rows)

/-- A raw meals CSV row after pandas coercion:
`(date, calories, protein_g, carbs_g, fat_g)`; the free-text `notes`
column is irrelevant to every claim and omitted. -/
def MealRaw : Type := Option ℤ × Option ℚ × Option ℚ × Option ℚ × Option ℚ

/-- The rows of `load_meals` surviving `dropna(subset=["date"])`, with
the numeric columns' NaNs replaced by `0.0` (`fillna(0.0)`). -/
def mealsValid (rows : List MealRaw) : List (ℤ × ℚ × ℚ × ℚ × ℚ) :=
  rows.filterMap (fun r =>
    match r.1 with
    | some d => some (d, r.2.1.getD 0, r.2.2.1.getD 0, r.2.2.2.1.getD 0, r.2.2.2.2.getD 0)
    | none => none)

/-- `load_meals` (src/utils.py lines 13–30): coerce, drop invalid
dates, zero-fill invalid numerics, sort ascending by date. -/
def load_meals (rows : List MealRaw) : List (ℤ × ℚ × ℚ × ℚ × ℚ) :=
  sortOn (fun r => r.1) (mealsValid rows)

/-! ### `src/forecast.py` — generic series forecast utilities -/

/-- `np.percentile(v, q)` with the default linear interpolation method:
virtual index `h = (n-1)*q/100` into the sorted copy, interpolating
between the two neighbouring order statistics. The virtual index is
nonnegative for the percentiles used (25 and 75), so its floor is the
truncating division num/den. -/
def percentileQ (v : List ℚ) (q : ℚ) : ℚ :=
  let s := List.insertionSort (fun a b => a ≤ b) v
  let n := s.length
  let h : ℚ := (n - 1 : ℚ) * q / 100
  let i : ℕ := h.num.toNat / h.den
  if i + 1 < n then s.getD i 0 + (h - i) * (s.getD (i + 1) 0 - s.getD i 0)
  else s.getD i 0

/-- The IQR outlier-rejection step of `forecast_series` (lines 74–83):
only for more than 4 points, only when the IQR is positive, and the
filtered array replaces the original only when it is nonempty. -/
def outlierFilterStep (v : List ℚ) : List ℚ :=
  if 4 < v.length then
    let q1 := percentileQ v 25
    let q3 := percentileQ v 75
    let iqr := q3 - q1
    if 0 < iqr then
      let lo := q1 - 3/2 * iqr
      let hi := q3 + 3/2 * iqr
      let f := v.filter (fun x => decide (lo ≤ x) && decide (x ≤ hi))
      if f.length ≠ 0 then f else v
    else v
  else v

/-- Lower outlier bound `Q1 - 1.5*IQR` of the filter step. -/
def iqrLower (v : List ℚ) : ℚ :=
  percentileQ v 25 - 3/2 * (percentileQ v 75 - percentileQ v 25)

/-- Upper outlier bound `Q3 + 1.5*IQR` of the filter step. -/
def iqrUpper (v : List ℚ) : ℚ :=
  percentileQ v 75 + 3/2 * (percentileQ v 75 - percentileQ v 25)

/-- `np.convolve(a, np.ones(w)/w, mode="same")`: entry `i` is the mean
kernel applied at full-convolution index `i + (w-1)/2`. -/
def convSame (a : List ℚ) (w : ℕ) : List ℚ :=
  let n := a.length
  let off := (w - 1) / 2
  (List.range n).map (fun i =>
    (((List.range n).map (fun j =>
        if j ≤ i + off ∧ i + off < j + w then a.getD j 0 else 0)).sum) / (w : ℚ))

/-- `_smooth_data` (lines 51–59): moving-average smoothing, with the
first and last entries restored to their original values. -/
def smoothData (v : List ℚ) (w : ℕ) : List ℚ :=
  if v.length < w then v
  else
    let s := convSame v w
    let s1 := s.set 0 (v.getD 0 0)
    s1.set (v.length - 1) (v.getD (v.length - 1) 0)

/-- The preprocessing of `forecast_series`: outlier rejection, then
(for at least 5 surviving points) smoothing with window
`min(3, n // 2)`. -/
def processedValues (v : List ℚ) : List ℚ :=
  let v1 := outlierFilterStep v
  if 5 ≤ v1.length then smoothData v1 (min 3 (v1.length / 2)) else v1

/-- Ordinary least squares on `x = 0, …, n-1` (what
`sklearn.LinearRegression().fit` computes), as `(intercept, slope)`.
For `n ≤ 1` the normal-equations denominator is 0 and sklearn returns a
zero slope with the mean as intercept. -/
def linCoeffs (y : List ℚ) : ℚ × ℚ :=
  let n : ℚ := y.length
  let xs := (List.range y.length).map (fun i => (i : ℚ))
  let sx := xs.sum
  let sx2 := (xs.map (fun x => x ^ 2)).sum
  let sy := y.sum
  let sxy := (((xs.zip y)).map (fun p => p.1 * p.2)).sum
  let den := n * sx2 - sx ^ 2
  if den = 0 then (if y.length = 0 then 0 else sy / n, 0)
  else
    let b := (n * sxy - sx * sy) / den
    ((sy - b * sx) / n, b)

/-- Predictions of a fitted line at `x = lo, …, lo + steps - 1`
(`_predict_linear` uses `lo = n_hist`; in-sample uses `lo = 0`). -/
def linPredsAt (c : ℚ × ℚ) (lo steps : ℕ) : List ℚ :=
  (List.range steps).map (fun (k : ℕ) => c.1 + c.2 * ((lo : ℚ) + (k : ℚ)))

/-- In-sample predictions of the OLS line. -/
def linPredsIn (y : List ℚ) : List ℚ := linPredsAt (linCoeffs y) 0 y.length

/-- The residual-error convention shared by every fitting routine in
`forecast.py`: `sqrt(mse)` when `n > 1`, else `np.std(y)` when
`n > 0`, else `0.0`. -/
def seOf (sq : ℚ → ℚ) (y : List ℚ) (mse : ℚ) : ℚ :=
  if 1 < y.length then sq mse
  else if 0 < y.length then sq (varQ y)
  else 0

/-- Quadratic least squares on `x = 0, …, n-1` (the projection computed
by `PolynomialFeatures(2) + LinearRegression`), coefficients
`(a, b, c)` of `a + b·x + c·x²`, solved from the 3×3 normal equations
by Cramer's rule. The `det = 0` branch is unreachable at every call
site (there `n ≥ 4`, and distinct abscissae make the system regular). -/
def quadCoeffs (y : List ℚ) : ℚ × ℚ × ℚ :=
  let xs := (List.range y.length).map (fun i => (i : ℚ))
  let s0 : ℚ := y.length
  let s1 := xs.sum
  let s2 := (xs.map (fun x => x ^ 2)).sum
  let s3 := (xs.map (fun x => x ^ 3)).sum
  let s4 := (xs.map (fun x => x ^ 4)).sum
  let t0 := y.sum
  let t1 := ((xs.zip y).map (fun p => p.1 * p.2)).sum
  let t2 := ((xs.zip y).map (fun p => p.1 ^ 2 * p.2)).sum
  let det := s0 * (s2 * s4 - s3 * s3) - s1 * (s1 * s4 - s3 * s2) + s2 * (s1 * s3 - s2 * s2)
  if det = 0 then (0, 0, 0)
  else
    let da := t0 * (s2 * s4 - s3 * s3) - s1 * (t1 * s4 - s3 * t2) + s2 * (t1 * s3 - s2 * t2)
    let db := s0 * (t1 * s4 - s3 * t2) - t0 * (s1 * s4 - s3 * s2) + s2 * (s1 * t2 - t1 * s2)
    let dc := s0 * (s2 * t2 - t1 * s3) - s1 * (s1 * t2 - t1 * s2) + t0 * (s1 * s3 - s2 * s2)
    (da / det, db / det, dc / det)

/-- A fitted polynomial model: either the quadratic fit or the linear
fallback `_fit_polynomial` uses when `len(y) < degree + 2`. -/
inductive PolyFit where
  | lin (c : ℚ × ℚ)
  | quad (a b c : ℚ)

/-- Prediction of a `PolyFit` at abscissa `x`. -/
def polyPredict : PolyFit → ℚ → ℚ
  | PolyFit.lin c, x => c.1 + c.2 * x
  | PolyFit.quad a b c, x => a + b * x + c * x ^ 2

/-- `_fit_polynomial` (lines 27–41): linear fallback for short series,
otherwise the degree-2 least-squares fit (every call site passes
degree 2), with the shared residual-error convention. -/
def fitPolynomial (sq : ℚ → ℚ) (y : List ℚ) (degree : ℕ) : PolyFit × ℚ :=
  if y.length < degree + 2 then
    let c := linCoeffs y
    (PolyFit.lin c, seOf sq y (mseQ y (linPredsIn y)))
  else
    let q := quadCoeffs y
    let preds := (List.range y.length).map
      (fun (i : ℕ) => polyPredict (PolyFit.quad q.1 q.2.1 q.2.2) (i : ℚ))
    (PolyFit.quad q.1 q.2.1 q.2.2, seOf sq y (mseQ y preds))

/-- In-sample predictions of the quadratic fit (used by the `auto`
model comparison). -/
def quadPredsIn (y : List ℚ) : List ℚ :=
  (List.range y.length).map (fun (i : ℕ) =>
    polyPredict (PolyFit.quad (quadCoeffs y).1 (quadCoeffs y).2.1 (quadCoeffs y).2.2) (i : ℚ))

/-- In-sample mean squared error of the OLS line. -/
def linMseIn (y : List ℚ) : ℚ := mseQ y (linPredsIn y)

/-- In-sample mean squared error of the quadratic fit. -/
def polyMseIn (y : List ℚ) : ℚ := mseQ y (quadPredsIn y)

/-- The `auto`-mode model selection of `forecast_series`
(lines 90–110): Holt when statsmodels is importable and `n ≥ 6`;
otherwise for `n ≥ 4` compare in-sample MSEs and take the polynomial
only when strictly below 80% of the linear one; otherwise linear. -/
def selectAuto (hasSM : Bool) (v : List ℚ) : Algo :=
  if hasSM ∧ 6 ≤ v.length then Algo.holt
  else if 4 ≤ v.length then
    if polyMseIn v < linMseIn v * (4/5) then Algo.poly else Algo.linear
  else Algo.linear

/-- The "clip predictions to reasonable bounds" step each branch of
`forecast_series` applies:
`np.clip(preds, min - 0.5*range, max + 0.5*range)` with min/max/range
taken over the processed series. -/
def clipAll (preds v : List ℚ) : List ℚ :=
  preds.map (fun x => clipQ x (minQ v - (maxQ v - minQ v) / 2) (maxQ v + (maxQ v - minQ v) / 2))

/-- The linear-regression fallback branch (lines 145–152). -/
def linBranch (sq : ℚ → ℚ) (v : List ℚ) (steps : ℕ) : List ℚ × ℚ :=
  (clipAll (linPredsAt (linCoeffs v) v.length steps) v, seOf sq v (linMseIn v))

/-- The polynomial branch (lines 132–143). -/
def polyBranch (sq : ℚ → ℚ) (v : List ℚ) (steps : ℕ) : List ℚ × ℚ :=
  let f := fitPolynomial sq v (min 2 (v.length - 2))
  (clipAll ((List.range steps).map
    (fun (k : ℕ) => polyPredict f.1 ((v.length : ℚ) + (k : ℚ)))) v, f.2)

/-- `forecast_series` (lines 61–152). `holtFn` abstracts the
statsmodels Holt fit: `none` models the caught exception (fall through
to the linear branch, since `algo` remains `"holt"` the polynomial
branch cannot fire); `some (fitted, predsOut)` gives the in-sample
fitted values (from which line 122 computes the error) and the raw
`model.forecast(steps)` before clipping.

`forecastDispatch` is the branch dispatch of lines 112–152, applied to
the processed values and the resolved algorithm; `forecast_series`
itself is the early-exit on an empty array plus preprocessing, `auto`
resolution and dispatch. On a failed Holt fit `algo` remains `"holt"`,
so the polynomial branch cannot fire and control reaches the linear
fallback. -/
def forecastDispatch (sq : ℚ → ℚ) (holtFn : List ℚ → ℕ → Option (List ℚ × List ℚ))
    (hasSM : Bool) (values : List ℚ) (steps : ℕ) (algo : Algo) : List ℚ × ℚ :=
  if algo = Algo.holt ∧ hasSM ∧ 6 ≤ values.length then
    match holtFn values steps with
    | some r => (clipAll r.2 values, seOf sq values (mseQ values r.1))
    | none => linBranch sq values steps
  else if algo = Algo.poly ∧ 4 ≤ values.length then polyBranch sq values steps
  else linBranch sq values steps

def forecast_series (sq : ℚ → ℚ) (holtFn : List ℚ → ℕ → Option (List ℚ × List ℚ))
    (hasSM : Bool) (values0 : List ℚ) (steps : ℕ) (algo0 : Algo) : List ℚ × ℚ :=
  if values0.length = 0 then ([], 0)
  else
    forecastDispatch sq holtFn hasSM (processedValues values0) steps
      (if algo0 = Algo.auto then selectAuto hasSM (processedValues values0) else algo0)

/-- `forecast_1rm` (lines 155–170): drop NaN `best_1rm` cells, emit the
actuals (note: with **no** `lower`/`upper` columns — they are NaN after
the concat, modelled as `none`), then the forecast rows with the
`±1.96·se` band. The 3-valued `algo` literal of its signature maps
`holt ↦ holt`, `linear ↦ linear`, anything else `↦ auto`. -/
def forecast_1rm (sq : ℚ → ℚ) (holtFn : List ℚ → ℕ → Option (List ℚ × List ℚ))
    (hasSM : Bool) (col : List (Option ℚ)) (steps : ℕ) (algo : Algo) : List FPoint :=
  let y := col.filterMap id
  if y.length = 0 then []
  else
    let actual := (List.range y.length).map (fun (i : ℕ) =>
      { date := (i : ℤ), value := y.getD i 0, lower := none, upper := none, kind := PKind.actual })
    let r := forecast_series sq holtFn hasSM y steps
      (if algo = Algo.holt then Algo.holt else if algo = Algo.linear then Algo.linear else Algo.auto)
    let future := (List.range r.1.length).map (fun (k : ℕ) =>
      { date := ((y.length + k : ℕ) : ℤ), value := r.1.getD k 0,
        lower := some (r.1.getD k 0 - 49/25 * r.2), upper := some (r.1.getD k 0 + 49/25 * r.2),
        kind := PKind.pred })
    actual ++ future

/-! ### `src/forecast.py` — weight forecasts -/

/-- The `dropna(subset=["date","body_weight_lbs"]).sort_values("date")`
normalisation both weight forecasters start with. Input rows are the
coerced `(date, body_weight_lbs)` columns. -/
def normBW (rows : List (Option ℤ × Option ℚ)) : List (ℤ × ℚ) :=
  sortOn (fun r => r.1)
    (rows.filterMap (fun r =>
      match r with
      | (some d, some w) => some (d, w)
      | _ => none))

/-!
`forecast_weight_realistic` (lines 189–253) is translated as a family
of named definitions mirroring its successive local bindings. `wfun n`
stands for the normalised exponential recency weights
`np.exp(np.linspace(-2, 0, n)) / sum` (irrational, hence a parameter);
`sq` for `np.sqrt`. The weighted normal equations are solved by
Cramer's rule; a zero determinant models the `LinAlgError` that
`np.linalg.solve` raises on a singular system (`none`, the exception
escaping the function, which has no handler). `weighted_resid ** 2`
is `resid² · weights`, computed here without the square root.
-/

/-- `t`: week-fractional abscissae `(date - date[0]).days / 7`. -/
def fwrT (rows : List (Option ℤ × Option ℚ)) : List ℚ :=
  (normBW rows).map (fun r => ((r.1 - ((normBW rows).headD (0, 0)).1 : ℤ) : ℚ) / 7)

/-- `y`: the weight values of the normalised series. -/
def fwrY (rows : List (Option ℤ × Option ℚ)) : List ℚ :=
  (normBW rows).map (fun r => r.2)

/-- `curr = float(y[-1])`. -/
def fwrCurr (rows : List (Option ℤ × Option ℚ)) : ℚ := (fwrY rows).getLastD 0

/-- `n = min(len(y), max(3, recent_weeks))`. -/
def fwrN (rows : List (Option ℤ × Option ℚ)) (recentWeeks : ℕ) : ℕ :=
  min (fwrY rows).length (max 3 recentWeeks)

/-- The recent-window abscissae `t[-n:]`. -/
def fwrTR (rows : List (Option ℤ × Option ℚ)) (recentWeeks : ℕ) : List ℚ :=
  (fwrT rows).drop ((fwrY rows).length - fwrN rows recentWeeks)

/-- The recent-window values `y[-n:]`. -/
def fwrYR (rows : List (Option ℤ × Option ℚ)) (recentWeeks : ℕ) : List ℚ :=
  (fwrY rows).drop ((fwrY rows).length - fwrN rows recentWeeks)

/-- The five weighted sums of `X.T @ W @ X` and `X.T @ W @ y`:
`(Σw, Σw·t, Σw·t², Σw·y, Σw·t·y)`. -/
def fwrSums (wfun : ℕ → List ℚ) (rows : List (Option ℤ × Option ℚ))
    (recentWeeks : ℕ) : ℚ × ℚ × ℚ × ℚ × ℚ :=
  let tR := fwrTR rows recentWeeks
  let yR := fwrYR rows recentWeeks
  let w := wfun (fwrN rows recentWeeks)
  (((w.zip tR).map (fun p => p.1)).sum,
   ((w.zip tR).map (fun p => p.1 * p.2)).sum,
   ((w.zip tR).map (fun p => p.1 * p.2 ^ 2)).sum,
   ((w.zip yR).map (fun p => p.1 * p.2)).sum,
   ((w.zip (tR.zip yR)).map (fun p => p.1 * p.2.1 * p.2.2)).sum)

/-- Determinant of the 2×2 weighted normal matrix. -/
def fwrDet (wfun : ℕ → List ℚ) (rows : List (Option ℤ × Option ℚ))
    (recentWeeks : ℕ) : ℚ :=
  let s := fwrSums wfun rows recentWeeks
  s.1 * s.2.2.1 - s.2.1 ^ 2

/-- `beta = np.linalg.solve(X.T @ W @ X, X.T @ W @ y)` by Cramer's
rule (only used when the determinant is nonzero). -/
def fwrBeta (wfun : ℕ → List ℚ) (rows : List (Option ℤ × Option ℚ))
    (recentWeeks : ℕ) : ℚ × ℚ :=
  let s := fwrSums wfun rows recentWeeks
  let det := fwrDet wfun rows recentWeeks
  ((s.2.2.2.1 * s.2.2.1 - s.2.1 * s.2.2.2.2) / det,
   (s.1 * s.2.2.2.2 - s.2.1 * s.2.2.2.1) / det)

/-- The slope before clamping: the target-rate slope when a target of
magnitude above `1e-9` is given, otherwise the estimated slope. -/
def fwrSlope0 (wfun : ℕ → List ℚ) (rows : List (Option ℤ × Option ℚ))
    (target : Option ℚ) (recentWeeks : ℕ) : ℚ :=
  match target with
  | some r =>
    if 1/1000000000 < |r| then fwrCurr rows * (r / 100)
    else (fwrBeta wfun rows recentWeeks).2
  | none => (fwrBeta wfun rows recentWeeks).2

/-- `max_abs_lbs_per_week = max_abs_rate_pct / 100 * curr`. -/
def fwrMaxAbs (rows : List (Option ℤ × Option ℚ)) (maxPct : ℚ) : ℚ :=
  maxPct / 100 * fwrCurr rows

/-- The clamped slope (line 232). -/
def fwrSlope (wfun : ℕ → List ℚ) (rows : List (Option ℤ × Option ℚ))
    (target : Option ℚ) (recentWeeks : ℕ) (maxPct : ℚ) : ℚ :=
  clipQ (fwrSlope0 wfun rows target recentWeeks)
    (-(fwrMaxAbs rows maxPct)) (fwrMaxAbs rows maxPct)

/-- The residual error of the weighted fit (lines 241–244);
`np.mean((resid * sqrt(w)) ** 2)` is `Σ wᵢ residᵢ² / n`. -/
def fwrSe (wfun : ℕ → List ℚ) (sq : ℚ → ℚ) (rows : List (Option ℤ × Option ℚ))
    (recentWeeks : ℕ) : ℚ :=
  let tR := fwrTR rows recentWeeks
  let yR := fwrYR rows recentWeeks
  let w := wfun (fwrN rows recentWeeks)
  let b := fwrBeta wfun rows recentWeeks
  let resid := (yR.zip tR).map (fun p => p.1 - (b.1 + b.2 * p.2))
  let mseW := (((w.zip resid).map (fun p => p.1 * p.2 ^ 2)).sum) / (resid.length : ℚ)
  if 1 < resid.length then sq mseW
  else if 1 < (fwrY rows).length then sq (varQ (fwrY rows))
  else 1

/-- `forecast_weight_realistic` itself: empty guard, the (possibly
raising) weighted solve, then the clamped linear projection with the
horizon-widened confidence band. -/
def forecast_weight_realistic (wfun : ℕ → List ℚ) (sq : ℚ → ℚ)
    (rows : List (Option ℤ × Option ℚ)) (horizon : ℕ) (target : Option ℚ)
    (recentWeeks : ℕ) (maxPct : ℚ) : Option (List FPoint) :=
  let d := normBW rows
  if d.length = 0 then some []
  else if fwrDet wfun rows recentWeeks = 0 then none
  else
    let curr := fwrCurr rows
    let slope := fwrSlope wfun rows target recentWeeks maxPct
    let se := fwrSe wfun sq rows recentWeeks
    let lastDate := (d.getLastD (0, 0)).1
    let actual := d.map (fun r =>
      { date := r.1, value := r.2, lower := some r.2, upper := some r.2,
        kind := PKind.actual })
    let future := (List.range horizon).map (fun (k : ℕ) =>
      { date := lastDate + 7 * ((k : ℤ) + 1), value := curr + slope * ((k : ℚ) + 1),
        lower := some (curr + slope * ((k : ℚ) + 1) - 49/25 * se * (1 + ((k : ℚ) + 1) / 10)),
        upper := some (curr + slope * ((k : ℚ) + 1) + 49/25 * se * (1 + ((k : ℚ) + 1) / 10)),
        kind := PKind.pred })
    some (actual ++ future)

/-- The prediction path of the realistic weight forecast: the last
observed (normalised) value followed by the values of the `"pred"`
rows, the sequence along which the clamp invariant is stated. -/
def weightPredPath (wfun : ℕ → List ℚ) (sq : ℚ → ℚ) (rows : List (Option ℤ × Option ℚ))
    (horizon : ℕ) (target : Option ℚ) (recentWeeks : ℕ) (maxPct : ℚ) : List ℚ :=
  ((normBW rows).getLastD (0, 0)).2 ::
    predValues ((forecast_weight_realistic wfun sq rows horizon target
      recentWeeks maxPct).getD [])

/-- `calories_to_weight_change_kg` (lines 262–263): energy density
7700 kcal/kg with metabolic-adaptation factor (default 0.75). -/
def calories_to_weight_change_kg (deficit : ℚ) (adapt : ℚ := 3/4) : ℚ :=
  deficit / 7700 * adapt

/-- Current mass in kg inside `forecast_weight_energy`:
last observed weight divided by 2.20462. -/
def fweCurrKg (dW : List (ℤ × ℚ)) : ℚ := (dW.getLastD (0, 0)).2 / (110231/50000)

/-- The last entry of `balance_kcal.rolling(smooth_days,
min_periods=1).mean()` after sorting by date: the mean of the last
`min(smooth_days, n)` balances. -/
def fweLastBal (bal : List (ℤ × ℚ)) (smoothDays : ℕ) : ℚ :=
  let s := (sortOn (fun r => r.1) bal).map (fun r => r.2)
  let k := min smoothDays s.length
  ((s.drop (s.length - k)).sum) / k

/-- The clamped daily mass change of `forecast_weight_energy`
(lines 293–297): the energy-balance rate clipped to
`±((max_abs_rate_pct/100)·current_kg)/7` per day. -/
def fweDailyKg (dW : List (ℤ × ℚ)) (bal : List (ℤ × ℚ))
    (smoothDays : ℕ) (maxPct : ℚ) : ℚ :=
  let maxWeeklyKg := maxPct / 100 * fweCurrKg dW
  clipQ (calories_to_weight_change_kg (fweLastBal bal smoothDays))
    (-(maxWeeklyKg / 7)) (maxWeeklyKg / 7)

/-- `forecast_weight_energy` (lines 276–319). `none` models the
`IndexError` of `.iloc[-1]` when every raw weight row is invalid while
the raw frames are nonempty (unreached by the claims). The daily
projection is resampled weekly by `future.iloc[::7]`. -/
def forecast_weight_energy (sq : ℚ → ℚ) (rows : List (Option ℤ × Option ℚ))
    (bal : List (ℤ × ℚ)) (horizon smoothDays : ℕ) (maxPct : ℚ) : Option (List FPoint) :=
  if rows.length = 0 ∨ bal.length = 0 then some []
  else
    let dW := normBW rows
    if dW.length = 0 then none
    else
      let currKg := fweCurrKg dW
      let dailyKg := fweDailyKg dW bal smoothDays maxPct
      let lastDate := (dW.getLastD (0, 0)).1
      let recent := (dW.map (fun r => r.2)).drop (dW.length - min 14 dW.length)
      let sd := if 2 ≤ recent.length then sq (sampleVarQ recent) else 1
      let future := (List.range (7 * horizon)).map (fun (i : ℕ) =>
        { date := lastDate + ((i : ℤ) + 1),
          value := (currKg + dailyKg * ((i : ℚ) + 1)) * (110231/50000),
          lower := some ((currKg + dailyKg * ((i : ℚ) + 1)) * (110231/50000) - 49/25 * sd),
          upper := some ((currKg + dailyKg * ((i : ℚ) + 1)) * (110231/50000) + 49/25 * sd),
          kind := PKind.pred })
      let actual := dW.map (fun r =>
        { date := r.1, value := r.2, lower := some r.2, upper := some r.2,
          kind := PKind.actual })
      some (actual ++ everyNth future 7)

/-! ### Generic sortedness facts about `sortOn` -/

lemma sortOn_sorted {α : Type} (key : α → ℤ) (l : List α) :
    List.Sorted (fun a b => key a ≤ key b) (sortOn key l) := by
  have ht : IsTotal α (fun a b => key a ≤ key b) := ⟨fun a b => le_total _ _⟩
  have htr : IsTrans α (fun a b => key a ≤ key b) := ⟨fun _ _ _ h1 h2 => le_trans h1 h2⟩
  exact List.sorted_insertionSort _ l

lemma sortOn_perm {α : Type} (key : α → ℤ) (l : List α) :
    List.Perm (sortOn key l) l :=
  List.perm_insertionSort _ l

/-! ### Helper lemmas -/

lemma predValues_append (l1 l2 : List FPoint) :
    predValues (l1 ++ l2) = predValues l1 ++ predValues l2 := by
  simp [predValues, List.filter_append]

lemma predValues_actual_map {α : Type} (l : List α) (f : α → FPoint)
    (hf : ∀ a, (f a).kind = PKind.actual) : predValues (l.map f) = [] := by
  induction l with
  | nil => rfl
  | cons a t ih =>
    simp only [List.map_cons, predValues, List.filter_cons] at ih ⊢
    rw [hf a]
    simpa using ih

lemma predValues_pred_map {α : Type} (l : List α) (f : α → FPoint)
    (hf : ∀ a, (f a).kind = PKind.pred) :
    predValues (l.map f) = l.map (fun a => (f a).value) := by
  induction l with
  | nil => rfl
  | cons a t ih =>
    simp only [List.map_cons, predValues, List.filter_cons] at ih ⊢
    rw [hf a]
    simpa using ih

lemma clipQ_mem (x lo hi : ℚ) (h : lo ≤ hi) : lo ≤ clipQ x lo hi ∧ clipQ x lo hi ≤ hi := by
  unfold clipQ
  constructor
  · exact le_min (le_trans (le_max_right x lo) (le_refl _)) h
  · exact min_le_right _ _

lemma abs_clipQ_le (x m : ℚ) : |clipQ x (-m) m| ≤ |m| := by
  rcases le_or_lt 0 m with hm | hm
  · have h := clipQ_mem x (-m) m (by linarith)
    rw [abs_of_nonneg hm]
    exact abs_le.mpr ⟨h.1, h.2⟩
  · have h : clipQ x (-m) m = m := by
      unfold clipQ
      have h1 : -m ≤ max x (-m) := le_max_right _ _
      exact min_eq_right (by linarith)
    rw [h]

lemma foldl_min_le_foldl_max (l : List ℚ) : ∀ a b : ℚ, a ≤ b →
    l.foldl min a ≤ l.foldl max b := by
  induction l with
  | nil => intro a b h; simpa using h
  | cons x t ih =>
    intro a b h
    exact ih _ _ (le_trans (min_le_left a x) (le_trans h (le_max_left b x)))

lemma minQ_le_maxQ (v : List ℚ) : minQ v ≤ maxQ v := by
  cases v with
  | nil => simp [minQ, maxQ]
  | cons x t => exact foldl_min_le_foldl_max t x x le_rfl

lemma mem_clipAll (ps v : List ℚ) :
    ∀ p ∈ clipAll ps v,
      minQ v - (maxQ v - minQ v) / 2 ≤ p ∧ p ≤ maxQ v + (maxQ v - minQ v) / 2 := by
  intro p hp
  unfold clipAll at hp
  obtain ⟨x, _, rfl⟩ := List.mem_map.mp hp
  have hmm := minQ_le_maxQ v
  exact clipQ_mem x _ _ (by linarith)

lemma convSame_length (a : List ℚ) (w : ℕ) : (convSame a w).length = a.length := by
  simp [convSame]

lemma smoothData_length (v : List ℚ) (w : ℕ) : (smoothData v w).length = v.length := by
  unfold smoothData
  split
  · rfl
  · simp [convSame_length]

lemma outlierFilterStep_length_pos (v : List ℚ) (hv : v ≠ []) :
    0 < (outlierFilterStep v).length := by
  unfold outlierFilterStep
  have h0 : 0 < v.length := List.length_pos.mpr hv
  dsimp only
  split
  · split
    · split
      · omega
      · exact h0
    · exact h0
  · exact h0

lemma processedValues_ne_nil (v : List ℚ) (hv : v ≠ []) : processedValues v ≠ [] := by
  unfold processedValues
  have h1 := outlierFilterStep_length_pos v hv
  dsimp only
  split
  · intro h
    have := smoothData_length (outlierFilterStep v) (min 3 ((outlierFilterStep v).length / 2))
    rw [h] at this
    simp at this
    omega
  · intro h
    rw [h] at h1
    simp at h1

lemma seOf_nonneg (sq : ℚ → ℚ) (hsq : ∀ x, 0 ≤ sq x) (y : List ℚ) (m : ℚ) :
    0 ≤ seOf sq y m := by
  unfold seOf
  split
  · exact hsq _
  · split
    · exact hsq _
    · exact le_refl 0

lemma forecast_series_se_nonneg (sq : ℚ → ℚ) (hsq : ∀ x, 0 ≤ sq x)
    (holtFn : List ℚ → ℕ → Option (List ℚ × List ℚ)) (hasSM : Bool)
    (v : List ℚ) (steps : ℕ) (a : Algo) :
    0 ≤ (forecast_series sq holtFn hasSM v steps a).2 := by
  have hlin : ∀ w s, 0 ≤ (linBranch sq w s).2 := fun w s => seOf_nonneg sq hsq _ _
  have hpoly : ∀ w s, 0 ≤ (polyBranch sq w s).2 := by
    intro w s
    unfold polyBranch fitPolynomial
    split
    · exact seOf_nonneg sq hsq _ _
    · exact seOf_nonneg sq hsq _ _
  have hdisp : ∀ w s al, 0 ≤ (forecastDispatch sq holtFn hasSM w s al).2 := by
    intro w s al
    unfold forecastDispatch
    split
    · cases holtFn w s with
      | some r => exact seOf_nonneg sq hsq _ _
      | none => exact hlin _ _
    · split
      · exact hpoly _ _
      · exact hlin _ _
  unfold forecast_series
  split
  · exact le_refl 0
  · exact hdisp _ _ _

lemma headD_mem_of_ne_nil {α : Type} (l : List α) (d : α) (h : l ≠ []) : l.headD d ∈ l := by
  cases l with
  | nil => exact absurd rfl h
  | cons a t => exact List.mem_cons_self a t

lemma fwrSe_nonneg (wfun : ℕ → List ℚ) (sq : ℚ → ℚ) (rows : List (Option ℤ × Option ℚ))
    (recentWeeks : ℕ) (hsq : ∀ x, 0 ≤ sq x) : 0 ≤ fwrSe wfun sq rows recentWeeks := by
  unfold fwrSe
  dsimp only
  split
  · exact hsq _
  · split
    · exact hsq _
    · norm_num

lemma map_const_range {α : Type} (b : α) (n : ℕ) :
    (List.range n).map (fun _ => b) = List.replicate n b := by
  induction n with
  | zero => rfl
  | succ n ih => rw [List.range_succ, List.map_append, ih, List.replicate_succ']; rfl

lemma getLastD_map_snd (l : List (ℤ × ℚ)) (hl : l ≠ []) :
    (l.map (fun r => r.2)).getLastD 0 = (l.getLastD (0, 0)).2 := by
  induction l with
  | nil => exact absurd rfl hl
  | cons x t ih =>
    cases t with
    | nil => rfl
    | cons y u =>
      simp only [List.map_cons, List.getLastD_cons] at ih ⊢
      exact ih (by simp)

lemma predPath_getD (c s : ℚ) (h i : ℕ) (hi : i < h) :
    (c :: (List.range h).map (fun (k : ℕ) => c + s * ((k : ℚ) + 1))).getD (i + 1) 0
      = c + s * ((i : ℚ) + 1) := by
  rw [List.getD_cons_succ]
  have hlen : i < ((List.range h).map (fun (k : ℕ) => c + s * ((k : ℚ) + 1))).length := by
    simpa using hi
  rw [List.getD_eq_getElem _ _ hlen, List.getElem_map, List.getElem_range]

lemma predPath_diff (c s : ℚ) (h i : ℕ) (hi : i + 1 < h + 1) :
    (c :: (List.range h).map (fun (k : ℕ) => c + s * ((k : ℚ) + 1))).getD (i + 1) 0
      - (c :: (List.range h).map (fun (k : ℕ) => c + s * ((k : ℚ) + 1))).getD i 0 = s := by
  have hi' : i < h := by omega
  cases i with
  | zero =>
    rw [predPath_getD c s h 0 hi', List.getD_cons_zero]
    push_cast
    ring
  | succ j =>
    rw [predPath_getD c s h (j + 1) hi', predPath_getD c s h j (by omega)]
    push_cast
    ring

lemma fwrCurr_eq (rows : List (Option ℤ × Option ℚ)) (hd : normBW rows ≠ []) :
    fwrCurr rows = ((normBW rows).getLastD (0, 0)).2 := by
  unfold fwrCurr fwrY
  exact getLastD_map_snd _ hd

/-- Output shape of `forecast_weight_realistic` on a nonempty
normalised series: either the singular-system exception, or predictions
forming an arithmetic progression from the last observed value whose
step is the clipped slope. -/
lemma fwr_shape (wfun : ℕ → List ℚ) (sq : ℚ → ℚ) (rows : List (Option ℤ × Option ℚ))
    (horizon : ℕ) (target : Option ℚ) (recentWeeks : ℕ) (maxPct : ℚ)
    (hd : normBW rows ≠ []) :
    forecast_weight_realistic wfun sq rows horizon target recentWeeks maxPct = none
    ∨ ∃ s : ℚ, |s| ≤ |maxPct / 100 * ((normBW rows).getLastD (0, 0)).2|
        ∧ predValues ((forecast_weight_realistic wfun sq rows horizon target
              recentWeeks maxPct).getD [])
          = (List.range horizon).map
              (fun (k : ℕ) => ((normBW rows).getLastD (0, 0)).2 + s * ((k : ℚ) + 1)) := by
  unfold forecast_weight_realistic
  dsimp only
  rw [if_neg (fun hh => hd (List.length_eq_zero.mp hh))]
  split
  · exact Or.inl rfl
  · right
    refine ⟨fwrSlope wfun rows target recentWeeks maxPct, ?_, ?_⟩
    · calc |fwrSlope wfun rows target recentWeeks maxPct|
          ≤ |fwrMaxAbs rows maxPct| := abs_clipQ_le _ _
        _ = |maxPct / 100 * ((normBW rows).getLastD (0, 0)).2| := by
            unfold fwrMaxAbs
            rw [fwrCurr_eq rows hd]
    · simp only [Option.getD_some]
      rw [predValues_append, predValues_actual_map _ _ (fun a => rfl),
        predValues_pred_map _ _ (fun a => rfl)]
      simp only [List.nil_append]
      apply List.map_congr_left
      intro k _
      dsimp only
      rw [fwrCurr_eq rows hd]

lemma everyNth7_map_range (f : ℕ → FPoint) (h : ℕ) :
    everyNth ((List.range (7 * h)).map f) 7 = (List.range h).map (fun j => f (7 * j)) := by
  unfold everyNth
  rw [List.length_map, List.length_range]
  have hc : (7 * h + (7 - 1)) / 7 = h := by omega
  rw [hc]
  apply List.map_congr_left
  intro j hj
  rw [List.mem_range] at hj
  have hlt : 7 * j < ((List.range (7 * h)).map f).length := by
    rw [List.length_map, List.length_range]
    omega
  rw [List.getD_eq_getElem _ _ hlt, List.getElem_map, List.getElem_range]

/-! ### Claim theorems -/

/-- C10: calling `forecast_weight_realistic` with a target rate of
magnitude at most `1e-9` (in particular `0`) returns exactly the same
ForecastSeries as calling it with `target_rate_pct = None`: the slope
estimated from the data is used. -/
theorem c10_zero_target_ignored (wfun : ℕ → List ℚ) (sq : ℚ → ℚ)
    (rows : List (Option ℤ × Option ℚ)) (horizon : ℕ) (r : ℚ)
    (recentWeeks : ℕ) (maxPct : ℚ) (hr : |r| ≤ 1/1000000000) :
    forecast_weight_realistic wfun sq rows horizon (some r) recentWeeks maxPct
      = forecast_weight_realistic wfun sq rows horizon none recentWeeks maxPct := by
  have hslope : fwrSlope0 wfun rows (some r) recentWeeks
      = fwrSlope0 wfun rows none recentWeeks := by
    unfold fwrSlope0
    dsimp only
    rw [if_neg (not_lt.mpr hr)]
  unfold forecast_weight_realistic fwrSlope
  rw [hslope]

/-- C10 witness: at a concrete two-point series, target 0 and target
`None` produce identical output. -/
theorem c10_witness :
    forecast_weight_realistic (fun _ => [1/2, 1/2]) (fun _ => 0)
        [(some 0, some 100), (some 7, some 101)] 2 (some 0) 6 (3/2)
      = forecast_weight_realistic (fun _ => [1/2, 1/2]) (fun _ => 0)
        [(some 0, some 100), (some 7, some 101)] 2 none 6 (3/2) :=
  c10_zero_target_ignored (fun _ => [1/2, 1/2]) (fun _ => 0)
    [(some 0, some 100), (some 7, some 101)] 2 0 6 (3/2) (by norm_num)

/-- C2 (code bug): on a series with exactly one valid observation
(`[(2024-01-01, 170)]`, any horizon, any configuration, any weight
vector) `forecast_weight_realistic` reaches `np.linalg.solve` with the
exactly singular weighted normal matrix `[[w0, 0], [0, 0]]` (the single
abscissa is 0), so it raises `LinAlgError` (`none` here) instead of
echoing the actual point with an empty prediction set as the
specification requires. -/
theorem c2_single_observation_raises (wfun : ℕ → List ℚ) (sq : ℚ → ℚ)
    (horizon : ℕ) (target : Option ℚ) (recentWeeks : ℕ) (maxPct : ℚ) :
    forecast_weight_realistic wfun sq [(some 0, some 170)] horizon target
      recentWeeks maxPct = none := by
  have hb : normBW [(some 0, some 170)] = [((0 : ℤ), (170 : ℚ))] := rfl
  have hn : fwrN [(some 0, some 170)] recentWeeks = 1 := by
    unfold fwrN fwrY
    rw [hb]
    exact Nat.min_eq_left (le_trans (by norm_num) (Nat.le_max_left 3 recentWeeks))
  have ht : fwrTR [(some 0, some 170)] recentWeeks = [0] := by
    unfold fwrTR fwrT fwrY
    rw [hb, hn]
    norm_num
  have hdet : fwrDet wfun [(some 0, some 170)] recentWeeks = 0 := by
    unfold fwrDet fwrSums
    rw [ht]
    cases wfun (fwrN [(some 0, some 170)] recentWeeks) with
    | nil => norm_num
    | cons w0 ws =>
      simp only [List.zip_cons_cons, List.zip_nil_right, List.map_cons, List.map_nil,
        List.sum_cons, List.sum_nil]
      norm_num
  unfold forecast_weight_realistic
  rw [hdet, hb]
  norm_num

/-- C5 counterexample: two bodyweight records with the same timestamp
both survive `read_bodyweight` — the normalizer performs no
de-duplication, so timestamps are not unique in its output and the
last-arriving value does not replace the earlier one. -/
theorem c5_counterexample :
    (read_bodyweight [(some 0, some 170, none), (some 0, some 171, none)]).map
        (fun r => r.1) = [0, 0]
    ∧ (read_bodyweight [(some 0, some 170, none), (some 0, some 171, none)]).map
        (fun r => r.2.1) = [some 170, some 171] := by
  constructor <;> rfl

/-- C5 amended: the series normalizers (`read_bodyweight` for weight,
`load_meals` for meals) drop records with invalid timestamps, sort the
result ascending by timestamp, and return an empty series rather than
raising when no valid records remain; records sharing a timestamp are
all retained (no de-duplication happens at read time). -/
theorem c5_normalizer_amended (rsB : List BWRaw) (rsM : List MealRaw) :
    List.Sorted (fun a b => a.1 ≤ b.1) (read_bodyweight rsB)
    ∧ List.Perm (read_bodyweight rsB) (bwValid rsB)
    ∧ (bwValid rsB = [] → read_bodyweight rsB = [])
    ∧ List.Sorted (fun a b => a.1 ≤ b.1) (load_meals rsM)
    ∧ List.Perm (load_meals rsM) (mealsValid rsM)
    ∧ (mealsValid rsM = [] → load_meals rsM = []) :=
  ⟨sortOn_sorted _ _, sortOn_perm _ _, fun h => by simp [read_bodyweight, h, sortOn],
   sortOn_sorted _ _, sortOn_perm _ _, fun h => by simp [load_meals, h, sortOn]⟩

/-- C5 amended-theorem witness at a concrete record list: valid records
of an invalid-and-valid mix are kept sorted, and an all-invalid meal
list yields the empty series. -/
theorem c5_normalizer_witness :
    read_bodyweight [(none, some 160, none), (some 3, some 170, none)]
        = [(3, some 170, none)]
    ∧ load_meals [(none, some 500, none, none, none)] = [] := by
  constructor
  · rfl
  · exact (c5_normalizer_amended [(none, some 160, none), (some 3, some 170, none)]
      [(none, some 500, none, none, none)]).2.2.2.2.2 rfl

/-- C6: the outlier filter of `forecast_series` runs only for more
than 4 points; it is a no-op when the IQR is zero; it keeps the
original series when filtering would remove every point; and whenever
it does run it removes exactly the values outside
`[Q1 - 1.5*IQR, Q3 + 1.5*IQR]`. -/
theorem c6_outlier_filter (v : List ℚ) :
    (v.length ≤ 4 → outlierFilterStep v = v)
    ∧ (percentileQ v 75 - percentileQ v 25 = 0 → outlierFilterStep v = v)
    ∧ (v.filter (fun x => decide (iqrLower v ≤ x) && decide (x ≤ iqrUpper v)) = [] →
        outlierFilterStep v = v)
    ∧ (4 < v.length → 0 < percentileQ v 75 - percentileQ v 25 →
        v.filter (fun x => decide (iqrLower v ≤ x) && decide (x ≤ iqrUpper v)) ≠ [] →
        outlierFilterStep v
          = v.filter (fun x => decide (iqrLower v ≤ x) && decide (x ≤ iqrUpper v))) := by
  unfold outlierFilterStep iqrLower iqrUpper
  dsimp only
  refine ⟨fun h => ?_, fun h => ?_, fun h => ?_, fun h1 h2 h3 => ?_⟩
  · rw [if_neg (by omega)]
  · split
    · rw [h]
      simp
    · rfl
  · split
    · split
      · rw [h]
        simp
      · rfl
    · rfl
  · rw [if_pos h1, if_pos h2, if_pos]
    simpa using h3

/-- C6 witness: for a five-point series with one extreme value the
filter removes exactly that value; the band conditions hold there. -/
theorem c6_outlier_filter_witness :
    outlierFilterStep [1, 2, 3, 4, 100] = [1, 2, 3, 4] := by
  have hq1 : percentileQ [1, 2, 3, 4, 100] 25 = 2 := by
    norm_num [percentileQ, List.insertionSort, List.orderedInsert]
  have hq3 : percentileQ [1, 2, 3, 4, 100] 75 = 4 := by
    norm_num [percentileQ, List.insertionSort, List.orderedInsert]
    norm_num [show (3 : ℤ).toNat = 3 from rfl]
  have hlo : iqrLower [1, 2, 3, 4, 100] = -1 := by rw [iqrLower, hq1, hq3]; norm_num
  have hhi : iqrUpper [1, 2, 3, 4, 100] = 7 := by rw [iqrUpper, hq1, hq3]; norm_num
  have hfil : List.filter
      (fun x => decide (iqrLower [1, 2, 3, 4, 100] ≤ x) &&
        decide (x ≤ iqrUpper [1, 2, 3, 4, 100])) [1, 2, 3, 4, 100] = [1, 2, 3, 4] := by
    simp only [hlo, hhi]
    norm_num [List.filter_cons, List.filter_nil, Bool.and_eq_true, decide_eq_true_eq]
  have h := (c6_outlier_filter [1, 2, 3, 4, 100]).2.2.2 (by norm_num)
    (by rw [hq1, hq3]; norm_num) (by rw [hfil]; simp)
  rw [h, hfil]

/-- C4: in auto mode, the selection used by `forecast_series` on a
processed series picks Holt exactly when statsmodels is available and
`n ≥ 6`; otherwise, for `n ≥ 4`, it picks the polynomial model exactly
when its in-sample mean squared error is strictly below 80% of the
linear one (falling back to linear otherwise); in every other case it
picks linear. -/
theorem c4_auto_model_selection (hasSM : Bool) (v : List ℚ) :
    (selectAuto hasSM v = Algo.holt ↔ (hasSM = true ∧ 6 ≤ v.length))
    ∧ (¬(hasSM = true ∧ 6 ≤ v.length) → 4 ≤ v.length →
        ((selectAuto hasSM v = Algo.poly ↔ polyMseIn v < linMseIn v * (4/5))
          ∧ (¬ polyMseIn v < linMseIn v * (4/5) → selectAuto hasSM v = Algo.linear)))
    ∧ (¬(hasSM = true ∧ 6 ≤ v.length) → v.length < 4 → selectAuto hasSM v = Algo.linear) := by
  unfold selectAuto
  split_ifs with h1 h2 h3 <;> refine ⟨?_, ?_, ?_⟩ <;> simp_all

/-- C4 witness: a concrete 4-point series lying exactly on a parabola
is assigned the polynomial model (its polynomial MSE is 0). -/
theorem c4_auto_model_selection_witness :
    selectAuto false [0, 1, 4, 9] = Algo.poly := by
  have hpoly : polyMseIn [0, 1, 4, 9] = 0 := by
    norm_num [polyMseIn, quadPredsIn, quadCoeffs, polyPredict, mseQ, List.range_succ]
  have hlin : linMseIn [0, 1, 4, 9] = 1 := by
    norm_num [linMseIn, linPredsIn, linPredsAt, linCoeffs, mseQ, List.range_succ]
  exact ((c4_auto_model_selection false [0, 1, 4, 9]).2.1 (by simp) (by simp)).1.mpr
    (by rw [hpoly, hlin]; norm_num)

/-- C7: on a series with a single observation, `forecast_series`
returns residual error 0 and every prediction equal to that
observation, for every requested algorithm; on an empty series it
returns no predictions and error 0. -/
theorem c7_short_series (sq : ℚ → ℚ) (h0 : sq 0 = 0)
    (holtFn : List ℚ → ℕ → Option (List ℚ × List ℚ)) (hasSM : Bool)
    (algo : Algo) (steps : ℕ) (y0 : ℚ) :
    forecast_series sq holtFn hasSM [y0] steps algo = (List.replicate steps y0, 0)
    ∧ forecast_series sq holtFn hasSM [] steps algo = ([], 0) := by
  constructor
  · have hproc : processedValues [y0] = [y0] := rfl
    have hdisp : ∀ al, forecastDispatch sq holtFn hasSM [y0] steps al
        = linBranch sq [y0] steps := by
      intro al
      unfold forecastDispatch
      rw [if_neg (by simp), if_neg (by simp)]
    have hr1 : List.range 1 = [0] := rfl
    have hco : linCoeffs [y0] = (y0, 0) := by
      unfold linCoeffs
      simp only [List.length_cons, List.length_nil, Nat.zero_add, hr1, List.map_cons,
        List.map_nil, List.sum_cons, List.sum_nil, List.zip_cons_cons, List.zip_nil_left,
        Nat.cast_zero, Nat.cast_one]
      norm_num
    have hse : seOf sq [y0] (linMseIn [y0]) = 0 := by
      unfold seOf varQ meanQ
      simp only [List.length_cons, List.length_nil, Nat.zero_add, List.map_cons,
        List.map_nil, List.sum_cons, List.sum_nil, Nat.cast_one]
      norm_num [h0]
    have hmin : minQ [y0] = y0 := rfl
    have hmax : maxQ [y0] = y0 := rfl
    have hlin : linBranch sq [y0] steps = (List.replicate steps y0, 0) := by
      unfold linBranch
      rw [hse, hco]
      unfold clipAll linPredsAt clipQ
      rw [List.map_map, hmin, hmax]
      refine congrArg (fun l => (l, (0 : ℚ))) ?_
      rw [← map_const_range y0 steps]
      apply List.map_congr_left
      intro k _
      simp only [Function.comp_apply]
      norm_num
    unfold forecast_series
    rw [if_neg (by simp), hproc, hdisp, hlin]
  · rfl

/-- C7 witness: concretely, a single observation 170 with 3 requested
steps yields three predictions of 170 and error 0, and the empty
series yields no predictions. -/
theorem c7_short_series_witness :
    forecast_series (fun _ => 0) (fun _ _ => none) false [170] 3 Algo.auto
        = (List.replicate 3 170, 0)
    ∧ forecast_series (fun _ => 0) (fun _ _ => none) false [] 3 Algo.auto = ([], 0) :=
  c7_short_series (fun _ => 0) rfl (fun _ _ => none) false Algo.auto 3 170

/-- C9: for every non-empty input series, every algorithm and every
step count, each out-of-sample prediction of `forecast_series` lies in
`[min - 0.5*(max - min), max + 0.5*(max - min)]` where min/max range
over the outlier-filtered and smoothed series — every branch clips its
raw predictions to this envelope. -/
theorem c9_prediction_envelope (sq : ℚ → ℚ)
    (holtFn : List ℚ → ℕ → Option (List ℚ × List ℚ)) (hasSM : Bool)
    (v : List ℚ) (steps : ℕ) (algo : Algo) (_hv : v ≠ []) :
    ∀ p ∈ (forecast_series sq holtFn hasSM v steps algo).1,
      minQ (processedValues v) - (maxQ (processedValues v) - minQ (processedValues v)) / 2 ≤ p
      ∧ p ≤ maxQ (processedValues v) + (maxQ (processedValues v) - minQ (processedValues v)) / 2 := by
  have hdisp : ∀ al, ∀ p ∈ (forecastDispatch sq holtFn hasSM (processedValues v) steps al).1,
      minQ (processedValues v) - (maxQ (processedValues v) - minQ (processedValues v)) / 2 ≤ p
      ∧ p ≤ maxQ (processedValues v) + (maxQ (processedValues v) - minQ (processedValues v)) / 2 := by
    intro al
    unfold forecastDispatch
    split
    · cases holtFn (processedValues v) steps with
      | some r => exact mem_clipAll r.2 _
      | none => exact mem_clipAll _ _
    · split
      · exact mem_clipAll _ _
      · exact mem_clipAll _ _
  unfold forecast_series
  split
  · intro p hp
    simp at hp
  · exact hdisp _

/-- C9 witness: a concrete prediction of a concrete series lies inside
the envelope of its processed values. -/
theorem c9_prediction_envelope_witness :
    minQ (processedValues [1, 2, 3])
        - (maxQ (processedValues [1, 2, 3]) - minQ (processedValues [1, 2, 3])) / 2
      ≤ (forecast_series (fun _ => 0) (fun _ _ => none) false [1, 2, 3] 1 Algo.auto).1.getD 0 0
    ∧ (forecast_series (fun _ => 0) (fun _ _ => none) false [1, 2, 3] 1 Algo.auto).1.getD 0 0
      ≤ maxQ (processedValues [1, 2, 3])
        + (maxQ (processedValues [1, 2, 3]) - minQ (processedValues [1, 2, 3])) / 2 := by
  have h1 : forecast_series (fun _ => 0) (fun _ _ => none) false [1, 2, 3] 1 Algo.auto
      = linBranch (fun _ => 0) [1, 2, 3] 1 := rfl
  have hlist : (forecast_series (fun _ => 0) (fun _ _ => none) false [1, 2, 3] 1 Algo.auto).1
      = [4] := by
    rw [h1]
    unfold linBranch clipAll linPredsAt linCoeffs clipQ minQ maxQ
    norm_num [List.range_succ, List.foldl, min_def, max_def]
  have hmem : (forecast_series (fun _ => 0) (fun _ _ => none) false [1, 2, 3] 1 Algo.auto).1.getD 0 0
      ∈ (forecast_series (fun _ => 0) (fun _ _ => none) false [1, 2, 3] 1 Algo.auto).1 := by
    rw [hlist]
    simp
  exact c9_prediction_envelope (fun _ => 0) (fun _ _ => none) false [1, 2, 3] 1 Algo.auto
    (by simp) _ hmem

/-- C1: along the prediction path of `forecast_weight_realistic` (the
last observed value followed by the predicted values, one point per
week), any two consecutive points differ by at most
`(max_abs_rate_pct/100) · current_value` per week, regardless of the
estimated slope: the clamp of line 232 bounds the weekly step. -/
theorem c1_weight_clamp_invariant (wfun : ℕ → List ℚ) (sq : ℚ → ℚ)
    (rows : List (Option ℤ × Option ℚ)) (horizon : ℕ) (target : Option ℚ)
    (recentWeeks : ℕ) (maxPct : ℚ)
    (hcurr : 0 ≤ ((normBW rows).getLastD (0, 0)).2) (hpct : 0 ≤ maxPct) (i : ℕ)
    (hi : i + 1 < (weightPredPath wfun sq rows horizon target recentWeeks maxPct).length) :
    |(weightPredPath wfun sq rows horizon target recentWeeks maxPct).getD (i + 1) 0
      - (weightPredPath wfun sq rows horizon target recentWeeks maxPct).getD i 0|
      ≤ maxPct / 100 * ((normBW rows).getLastD (0, 0)).2 := by
  by_cases hd : normBW rows = []
  · exfalso
    have hres : forecast_weight_realistic wfun sq rows horizon target recentWeeks maxPct
        = some [] := by
      unfold forecast_weight_realistic
      rw [if_pos (by rw [hd]; rfl)]
    simp only [weightPredPath, hres] at hi
    simp [predValues] at hi
  · rcases fwr_shape wfun sq rows horizon target recentWeeks maxPct hd with hnone | ⟨s, hs, hpv⟩
    · exfalso
      simp only [weightPredPath, hnone] at hi
      simp [predValues] at hi
    · have hm : |maxPct / 100 * ((normBW rows).getLastD (0, 0)).2|
          = maxPct / 100 * ((normBW rows).getLastD (0, 0)).2 :=
        abs_of_nonneg (mul_nonneg (by positivity) hcurr)
      have hpath : weightPredPath wfun sq rows horizon target recentWeeks maxPct
          = ((normBW rows).getLastD (0, 0)).2 ::
            (List.range horizon).map
              (fun (k : ℕ) => ((normBW rows).getLastD (0, 0)).2 + s * ((k : ℚ) + 1)) := by
        unfold weightPredPath
        rw [hpv]
      rw [hpath] at hi ⊢
      have hlen : i + 1 < horizon + 1 := by
        simp at hi
        omega
      rw [predPath_diff _ s horizon i hlen]
      exact hs.trans_eq hm

/-- C1 witness: for a concrete two-point series the first weekly step
of the path obeys the clamp bound. -/
theorem c1_weight_clamp_witness :
    |(weightPredPath (fun _ => [1/2, 1/2]) (fun _ => 0)
        [(some 0, some 100), (some 7, some 101)] 4 none 6 (3/2)).getD 1 0
      - (weightPredPath (fun _ => [1/2, 1/2]) (fun _ => 0)
        [(some 0, some 100), (some 7, some 101)] 4 none 6 (3/2)).getD 0 0|
      ≤ (3/2) / 100
        * ((normBW [(some 0, some 100), (some 7, some 101)]).getLastD (0, 0)).2 := by
  have hb : normBW [(some 0, some 100), (some 7, some 101)]
      = [((0 : ℤ), (100 : ℚ)), (7, 101)] := rfl
  have hd : normBW [(some 0, some 100), (some 7, some 101)] ≠ [] := by
    rw [hb]
    simp
  have ht : fwrTR [(some 0, some 100), (some 7, some 101)] 6 = [0, 1] := by
    unfold fwrTR fwrT fwrN fwrY
    rw [hb]
    norm_num
  have hdet : fwrDet (fun _ => [1/2, 1/2]) [(some 0, some 100), (some 7, some 101)] 6 ≠ 0 := by
    unfold fwrDet fwrSums
    rw [ht]
    norm_num
  refine c1_weight_clamp_invariant _ _ _ _ _ _ _ (by rw [hb]; norm_num) (by norm_num) 0 ?_
  rcases fwr_shape (fun _ => [1/2, 1/2]) (fun _ => 0)
      [(some 0, some 100), (some 7, some 101)] 4 none 6 (3/2) hd with hnone | ⟨s, _, hpv⟩
  · exfalso
    unfold forecast_weight_realistic at hnone
    rw [if_neg (fun hh => hd (List.length_eq_zero.mp hh)), if_neg hdet] at hnone
    simp at hnone
  · simp only [weightPredPath, hpv]
    simp

/-- C3 counterexample: `forecast_1rm` emits its actual points without
band columns (NaN after the concat, `none` here), so an actual point of
a concrete series has `lower = upper = none ≠ some value`, refuting
"for kind = actual, lower = upper = value" for this entry point. -/
theorem c3_counterexample :
    (forecast_1rm (fun _ => 0) (fun _ _ => none) false [some 100] 1 Algo.auto).headD
        ⟨0, 0, none, none, PKind.pred⟩
      = ⟨0, 100, none, none, PKind.actual⟩ := rfl

/-- C3 amended: every `kind = "pred"` point of both entry points
satisfies `lower ≤ value ≤ upper`; `kind = "actual"` points of
`forecast_weight_realistic` carry the degenerate band
`lower = upper = value`, while those of `forecast_1rm` carry no band at
all (missing `lower`/`upper`). -/
theorem c3_band_ordering_amended (sq : ℚ → ℚ) (hsq : ∀ x, 0 ≤ sq x)
    (holtFn : List ℚ → ℕ → Option (List ℚ × List ℚ)) (hasSM : Bool)
    (col : List (Option ℚ)) (steps : ℕ) (a1 : Algo)
    (wfun : ℕ → List ℚ) (rowsW : List (Option ℤ × Option ℚ)) (horizon : ℕ)
    (target : Option ℚ) (recentWeeks : ℕ) (maxPct : ℚ) (out : List FPoint) :
    (∀ p ∈ forecast_1rm sq holtFn hasSM col steps a1,
        (p.kind = PKind.pred →
          ∃ l u, p.lower = some l ∧ p.upper = some u ∧ l ≤ p.value ∧ p.value ≤ u)
        ∧ (p.kind = PKind.actual → p.lower = none ∧ p.upper = none))
    ∧ (forecast_weight_realistic wfun sq rowsW horizon target recentWeeks maxPct = some out →
        ∀ p ∈ out,
          (p.kind = PKind.pred →
            ∃ l u, p.lower = some l ∧ p.upper = some u ∧ l ≤ p.value ∧ p.value ≤ u)
          ∧ (p.kind = PKind.actual → p.lower = some p.value ∧ p.upper = some p.value)) := by
  constructor
  · unfold forecast_1rm
    dsimp only
    split
    · intro p hp
      simp at hp
    · intro p hp
      rw [List.mem_append] at hp
      rcases hp with hp | hp
      · obtain ⟨i, _, rfl⟩ := List.mem_map.mp hp
        exact ⟨fun hk => absurd hk (by simp), fun _ => ⟨rfl, rfl⟩⟩
      · obtain ⟨k, _, rfl⟩ := List.mem_map.mp hp
        refine ⟨fun _ => ⟨_, _, rfl, rfl, ?_, ?_⟩, fun hk => absurd hk (by simp)⟩
        · have hse := forecast_series_se_nonneg sq hsq holtFn hasSM (col.filterMap id) steps
            (if a1 = Algo.holt then Algo.holt else if a1 = Algo.linear then Algo.linear
              else Algo.auto)
          dsimp only
          nlinarith
        · have hse := forecast_series_se_nonneg sq hsq holtFn hasSM (col.filterMap id) steps
            (if a1 = Algo.holt then Algo.holt else if a1 = Algo.linear then Algo.linear
              else Algo.auto)
          dsimp only
          nlinarith
  · intro hout p hp
    unfold forecast_weight_realistic at hout
    by_cases hd0 : (normBW rowsW).length = 0
    · rw [if_pos hd0] at hout
      obtain rfl := Option.some.inj hout
      simp at hp
    · rw [if_neg hd0] at hout
      by_cases hdet : fwrDet wfun rowsW recentWeeks = 0
      · rw [if_pos hdet] at hout
        exact absurd hout (by simp)
      · rw [if_neg hdet] at hout
        obtain rfl := Option.some.inj hout
        rw [List.mem_append] at hp
        rcases hp with hp | hp
        · obtain ⟨r, _, rfl⟩ := List.mem_map.mp hp
          exact ⟨fun hk => absurd hk (by simp), fun _ => ⟨rfl, rfl⟩⟩
        · obtain ⟨k, _, rfl⟩ := List.mem_map.mp hp
          refine ⟨fun _ => ⟨_, _, rfl, rfl, ?_, ?_⟩, fun hk => absurd hk (by simp)⟩
          · have hse := fwrSe_nonneg wfun sq rowsW recentWeeks hsq
            have hmult : (0 : ℚ) ≤ 1 + ((k : ℚ) + 1) / 10 := by positivity
            dsimp only
            nlinarith
          · have hse := fwrSe_nonneg wfun sq rowsW recentWeeks hsq
            have hmult : (0 : ℚ) ≤ 1 + ((k : ℚ) + 1) / 10 := by positivity
            dsimp only
            nlinarith

/-- C3 amended-theorem witness: at a concrete series the actual point
of `forecast_1rm` indeed carries no band values. -/
theorem c3_band_ordering_witness :
    ((forecast_1rm (fun _ => 0) (fun _ _ => none) false [some 100] 1 Algo.auto).headD
        ⟨0, 0, none, none, PKind.pred⟩).lower = none
    ∧ ((forecast_1rm (fun _ => 0) (fun _ _ => none) false [some 100] 1 Algo.auto).headD
        ⟨0, 0, none, none, PKind.pred⟩).upper = none := by
  have hlen2 : (forecast_1rm (fun _ => 0) (fun _ _ => none) false [some 100] 1
      Algo.auto).length = 2 := rfl
  have hne : forecast_1rm (fun _ => 0) (fun _ _ => none) false [some 100] 1 Algo.auto ≠ [] := by
    intro h
    rw [h] at hlen2
    exact absurd hlen2 (by norm_num)
  have hkind : ((forecast_1rm (fun _ => 0) (fun _ _ => none) false [some 100] 1
      Algo.auto).headD ⟨0, 0, none, none, PKind.pred⟩).kind = PKind.actual := rfl
  exact ((c3_band_ordering_amended (fun _ => 0) (fun _ => le_refl 0) (fun _ _ => none)
      false [some 100] 1 Algo.auto (fun _ => [1]) [] 0 none 6 (3/2) []).1
    _ (headD_mem_of_ne_nil _ _ hne)).2 hkind

/-- C8: `calories_to_weight_change_kg` maps a daily balance `b` to
exactly `(b/7700)·0.75` kg/day, and `forecast_weight_energy` clamps the
resulting daily rate to `±((max_abs_rate_pct/100)·current_kg)/7` per
day before projecting it forward (the weekly samples at days
`7j + 1` follow the clamped rate). -/
theorem c8_energy_conversion (sq : ℚ → ℚ) (rows : List (Option ℤ × Option ℚ))
    (bal : List (ℤ × ℚ)) (horizon smoothDays : ℕ) (maxPct : ℚ)
    (h1 : rows ≠ []) (h2 : bal ≠ []) (h3 : normBW rows ≠ []) :
    (∀ b : ℚ, calories_to_weight_change_kg b = b / 7700 * (3/4))
    ∧ fweDailyKg (normBW rows) bal smoothDays maxPct
        = clipQ (calories_to_weight_change_kg (fweLastBal bal smoothDays))
            (-(maxPct / 100 * fweCurrKg (normBW rows) / 7))
            (maxPct / 100 * fweCurrKg (normBW rows) / 7)
    ∧ predValues ((forecast_weight_energy sq rows bal horizon smoothDays maxPct).getD [])
        = (List.range horizon).map (fun (j : ℕ) =>
            (fweCurrKg (normBW rows)
              + fweDailyKg (normBW rows) bal smoothDays maxPct * (7 * (j : ℚ) + 1))
              * (110231/50000)) := by
  refine ⟨fun b => rfl, rfl, ?_⟩
  unfold forecast_weight_energy
  dsimp only
  rw [if_neg (fun hh => hh.elim (fun ha => h1 (List.length_eq_zero.mp ha))
    (fun hb => h2 (List.length_eq_zero.mp hb)))]
  rw [if_neg (fun hh => h3 (List.length_eq_zero.mp hh))]
  simp only [Option.getD_some]
  rw [predValues_append, predValues_actual_map _ _ (fun a => rfl), everyNth7_map_range,
    predValues_pred_map _ _ (fun a => rfl)]
  simp only [List.nil_append]
  apply List.map_congr_left
  intro j _
  dsimp only
  push_cast
  ring

/-- C8 witness: the concrete energy scenario (single 170 lbs
observation, one day of balance −500 kcal) has its weekly prediction
values given by the clamped-rate formula. -/
theorem c8_energy_witness :
    predValues ((forecast_weight_energy (fun _ => 0) [(some 0, some 170)] [(0, -500)] 1 7
        (3/2)).getD [])
      = (List.range 1).map (fun (j : ℕ) =>
          (fweCurrKg (normBW [(some 0, some 170)])
            + fweDailyKg (normBW [(some 0, some 170)]) [(0, -500)] 7 (3/2)
              * (7 * (j : ℚ) + 1)) * (110231/50000)) :=
  (c8_energy_conversion (fun _ => 0) [(some 0, some 170)] [(0, -500)] 1 7 (3/2)
    (by simp) (by simp)
    (by simp [show normBW [(some 0, some 170)] = [((0 : ℤ), (170 : ℚ))] from rfl])).2.2

end GymTracker
